import Mathlib

/-!
Verification of the Battleships assistant (heat-field engine and
action/undo state machine) against its natural-language specification.

The Rust source is shallowly embedded:
  * machine integers (usize) become Nat,
  * f32 heat values become exact rationals (ℚ),
  * fallible operations return Except/Option,
  * in-place mutation becomes explicit state passing.
The action history is kept most-recent-first (Rust pushes/pops at the
end of a Vec and scans it in reverse; a cons list with the newest entry
at the head has the same observable behaviour).
-/

namespace Battleships

/-- Per-cell shot outcome, from src/types/mod.rs (enum ShotStatus). -/
inductive ShotStatus where
  | Untested
  | Miss
  | Hit
  | Sunk
deriving DecidableEq, Repr

instance : Inhabited ShotStatus := ⟨ShotStatus.Untested⟩

/-- ShotStatus::can_contain_ship from src/types/mod.rs. -/
def ShotStatus.can_contain_ship : ShotStatus → Bool
  | .Untested | .Hit => true
  | .Miss | .Sunk => false

/-- The discriminant test against ShotStatus::Hit used by find_all and
generate_possible_ship_locations. -/
def ShotStatus.isHit : ShotStatus → Bool
  | .Hit => true
  | _ => false

/-- Row/column axis, from src/types/mod.rs (enum Axis). -/
inductive Axis where
  | Row
  | Column
deriving DecidableEq, Repr, Fintype

/-- Axis::opposite from src/types/mod.rs. -/
def Axis.opposite : Axis → Axis
  | .Row => .Column
  | .Column => .Row

/-- Zero-indexed board coordinate, from src/types/mod.rs (struct Coordinate). -/
structure Coordinate where
  row : Nat
  column : Nat
deriving DecidableEq, Repr

instance : Inhabited Coordinate := ⟨⟨0, 0⟩⟩

/-- Coordinate::get_axis_index from src/types/mod.rs. -/
def Coordinate.get_axis_index (c : Coordinate) : Axis → Nat
  | .Row => c.row
  | .Column => c.column

/-- Coordinate::set_axis_index from src/types/mod.rs. -/
def Coordinate.set_axis_index (c : Coordinate) (axis : Axis) (index : Nat) : Coordinate :=
  match axis with
  | .Row => { c with row := index }
  | .Column => { c with column := index }

/-- Coordinate::printable from src/types/mod.rs: 1-indexed, column first. -/
def Coordinate.printable (c : Coordinate) : String :=
  "[" ++ toString (c.column + 1) ++ ", " ++ toString (c.row + 1) ++ "]"

/-- Coordinate::from_user from src/types/mod.rs.  The source subtracts 1 from
each usize argument with no guard; a zero argument underflows (panics in a
debug build).  The underflowing case is modelled as none. -/
def Coordinate.from_user (column row : Nat) : Option Coordinate :=
  match row, column with
  | row + 1, column + 1 => some { row := row, column := column }
  | _, _ => none

/-- Argument of an action: a known value or one still to be inferred,
from src/types/mod.rs (enum Argument). -/
inductive Argument (α : Type) where
  | Known (value : α)
  | Unknown
deriving DecidableEq, Repr

/-- Player action, from src/types/mod.rs (enum Action). -/
inductive Action where
  | Fire (arg : Argument Coordinate)
  | Hit (arg : Argument Coordinate)
  | Sink (arg : Argument Nat)
  | Unfire (arg : Argument Coordinate)
  | Unsink (arg : Argument Nat)
  | Undo
deriving DecidableEq, Repr

/-- Action::opposite from src/types/mod.rs.  The source panics on Undo
(unreachable); that case is totalized as Undo and never exercised, since the
action history never contains Undo. -/
def Action.opposite : Action → Action
  | .Fire content => .Unfire content
  | .Hit content => .Unfire content
  | .Sink content => .Unsink content
  | .Unfire content => .Fire content
  | .Unsink content => .Sink content
  | .Undo => .Undo

/-- Rectangular grid of cells, from src/types/field.rs (struct Field). -/
structure Field (α : Type) where
  data : List (List α)
deriving DecidableEq, Repr

/-- Field::new_default from src/types/field.rs. -/
def Field.new_default (α : Type) [Inhabited α] (width height : Nat) : Field α :=
  ⟨List.replicate height (List.replicate width default)⟩

/-- Field::width from src/types/field.rs (length of the first row; the source
unwraps and panics on a rowless grid, modelled as 0). -/
def Field.width (f : Field α) : Nat :=
  (f.data.headD []).length

/-- Field::height from src/types/field.rs. -/
def Field.height (f : Field α) : Nat :=
  f.data.length

/-- Field::number_of_lines_in_axis from src/types/field.rs. -/
def Field.number_of_lines_in_axis (f : Field α) : Axis → Nat
  | .Row => f.height
  | .Column => f.width

/-- Field::get_line from src/types/field.rs.  For a column the source unwraps
row.get(index) on every row; on the rectangular grids all callers use, the
getD default is never taken. -/
def Field.get_line [Inhabited α] (f : Field α) (axis : Axis) (index : Nat) :
    Option (List α) :=
  if f.number_of_lines_in_axis axis ≤ index then none
  else
    match axis with
    | .Row => f.data[index]?
    | .Column => some (f.data.map (fun row => row.getD index default))

/-- Field::get_value from src/types/field.rs. -/
def Field.get_value (f : Field α) (coord : Coordinate) : Option α :=
  (f.data[coord.row]?).bind (fun row => row[coord.column]?)

/-- Field::set_value from src/types/field.rs (bounds-checked, named errors). -/
def Field.set_value (f : Field α) (coord : Coordinate) (value : α) :
    Except String (Field α) :=
  match f.data[coord.row]? with
  | none => .error "Row index out of bounds."
  | some row =>
    match row[coord.column]? with
    | none => .error "Column index out of bounds."
    | some _ => .ok ⟨f.data.set coord.row (row.set coord.column value)⟩

/-- Field::transform_all from src/types/field.rs. -/
def Field.transform_all (f : Field α) (transform : α → β) : Field β :=
  ⟨f.data.map (fun line => line.map transform)⟩

/-- Field::merge_fields from src/types/field.rs (zip truncates, as in Rust). -/
def Field.merge_fields (f : Field α) (other : Field β) (merge : α → β → γ) :
    Field γ :=
  ⟨List.zipWith (fun a b => List.zipWith merge a b) f.data other.data⟩

/-- Field::set_line from src/types/field.rs.  Setting a column pairs rows with
line values (zip truncates); rows beyond the line keep their old value. -/
def Field.set_line (f : Field α) (axis : Axis) (index : Nat) (line : List α) :
    Field α :=
  match axis with
  | .Row => ⟨f.data.set index line⟩
  | .Column =>
    ⟨List.zipWith (fun row v => row.set index v) f.data line ++
      f.data.drop line.length⟩

/-- Field::merge_line from src/types/field.rs: combine one row/column with a
given line cell-by-cell.  The source unwraps get_line; all callers pass
in-bounds indices. -/
def Field.merge_line [Inhabited α] (f : Field α) (axis : Axis) (index : Nat)
    (line : List α) (transform : α → α → α) : Field α :=
  let merged := List.zipWith transform ((f.get_line axis index).getD []) line
  f.set_line axis index merged

/-- Field::find_all from src/types/field.rs: row-major coordinates of the
cells satisfying the predicate. -/
def Field.find_all (f : Field α) (predicate : α → Bool) : List Coordinate :=
  (f.data.enum.map (fun rl =>
    ((rl.2.enum.filter (fun cv => predicate cv.2)).map
      (fun cv => Coordinate.mk rl.1 cv.1)))).flatten

/-- All cell values of a field in row-major order (used to state
membership-based invariants). -/
def Field.values (f : Field α) : List α :=
  f.data.flatten

/-- gen_free_space from src/heatmap/mod.rs: per-cell cover counts and the
number of placements of a ship of the given length inside a free streak. -/
def gen_free_space (space ship_length : Nat) : List Nat × Nat :=
  if ship_length > space then (List.replicate space 0, 0)
  else
    let ship_count := space - ship_length + 1
    ((List.range space).map (fun i =>
        let left_dist := i + 1
        let right_dist := space - i
        min (min (min left_dist right_dist) ship_length) ship_count),
      ship_count)

/-- get_streaks from src/heatmap/mod.rs: run-length encoding of a line (the
Rust loop extends the last run or starts a new one; the source panics on an
empty line, modelled as the empty encoding). -/
def get_streaks : List Bool → List (Nat × Bool)
  | [] => []
  | [x] => [(1, x)]
  | x :: y :: rest =>
    match get_streaks (y :: rest) with
    | [] => [(1, x)]
    | (n, b) :: tail =>
      if x = b then (n + 1, b) :: tail else (1, x) :: (n, b) :: tail

/-- The loop body of gen_line from src/heatmap/mod.rs: extend the result with
one streak's cover counts (zeros on a blocked streak) and accumulate the
placement count. -/
def gen_line_step (ship_length : Nat) (acc : List Nat × Nat)
    (streak : Nat × Bool) : List Nat × Nat :=
  match streak.2 with
  | false => (acc.1 ++ List.replicate streak.1 0, acc.2)
  | true =>
    let fs := gen_free_space streak.1 ship_length
    (acc.1 ++ fs.1, acc.2 + fs.2)

/-- gen_line from src/heatmap/mod.rs: concatenate per-streak cover counts
(zeros on blocked streaks) and accumulate the placement count. -/
def gen_line (shots : List Bool) (ship_length : Nat) : List Nat × Nat :=
  (get_streaks shots).foldl (gen_line_step ship_length) ([], 0)

/-- The number of length-L window placements inside a streak of length S that
cover position i (spec-side counting quantity for C1). -/
def coverCount (S L i : Nat) : Nat :=
  ((Finset.range (S - L + 1)).filter (fun j => j ≤ i ∧ i < j + L)).card

/-- reduce_heat_fields from src/heatmap/mod.rs: invert each field, multiply
cellwise, invert back (P(any) = 1 − Π(1 − Pᵢ)).  The source unwraps the
reduce and panics on an empty iterator; all callers pass a nonempty list. -/
def reduce_heat_fields (fields : List (Field ℚ)) : Field ℚ :=
  match fields.map (fun field => field.transform_all (fun val => 1 - val)) with
  | [] => ⟨[]⟩
  | f :: rest =>
    (rest.foldl (fun acc e => acc.merge_fields e (fun a b => a * b)) f).transform_all
      (fun val => 1 - val)

/-- mask_heat_field from src/heatmap/mod.rs: force every Hit/Miss/Sunk cell
to exactly 0. -/
def mask_heat_field (heat : Field ℚ) (shots : Field ShotStatus) : Field ℚ :=
  heat.merge_fields shots (fun heat_val status =>
    match status with
    | .Hit | .Miss | .Sunk => 0
    | .Untested => heat_val)

namespace Base

/-- gen_ship_counts from src/heatmap/base.rs: per-cell placement counts of one
ship length along every row and every column, merged by addition, together
with the total placement count over all lines of both axes. -/
def gen_ship_counts (bool_shots : Field Bool) (ship_length : Nat) :
    Field Nat × Nat :=
  let rowPairs := bool_shots.data.map (fun line => gen_line line ship_length)
  let colLines := (List.range bool_shots.width).map
    (fun i => bool_shots.data.map (fun row => row.getD i false))
  let colPairs := colLines.map (fun line => gen_line line ship_length)
  let rowField := rowPairs.map Prod.fst
  let colField := (List.range bool_shots.height).map (fun r =>
    (List.range bool_shots.width).map (fun c =>
      ((colPairs.getD c ([], 0)).1).getD r 0))
  let counts := List.zipWith (fun a b => List.zipWith (· + ·) a b) rowField colField
  (⟨counts⟩, (rowPairs.map Prod.snd).sum + (colPairs.map Prod.snd).sum)

/-- ship_counts_to_heat from src/heatmap/base.rs. -/
def ship_counts_to_heat (ship_counts : Field Nat) (total_ship_count : Nat) :
    Field ℚ :=
  ship_counts.transform_all (fun ship_count =>
    (ship_count : ℚ) / (total_ship_count : ℚ))

/-- base::gen_heat from src/heatmap/base.rs: a ship length that fits nowhere
contributes an all-zero field (with a console warning in the source). -/
def gen_heat (bool_shots : Field Bool) (ship_lengths : List Nat) : Field ℚ :=
  reduce_heat_fields (ship_lengths.map (fun ship_length =>
    let sc := gen_ship_counts bool_shots ship_length
    if sc.2 = 0 then Field.new_default ℚ bool_shots.width bool_shots.height
    else ship_counts_to_heat sc.1 sc.2))

end Base

namespace HitHeat

/-- mask_around_hit from src/heatmap/hit.rs: positions more than L−1 cells
from the hit are forced false. -/
def mask_around_hit (shots : List Bool) (hit_location ship_length : Nat) :
    List Bool :=
  shots.enum.map (fun iv =>
    if iv.1 + ship_length ≤ hit_location ∨ hit_location + ship_length ≤ iv.1
    then false else iv.2)

/-- hit::ship_counts_to_heat from src/heatmap/hit.rs (line version). -/
def ship_counts_to_heat (ship_counts : List Nat) (total_ship_count : Nat) :
    List ℚ :=
  ship_counts.map (fun (ship_count : Nat) =>
    (ship_count : ℚ) / (total_ship_count : ℚ))

/-- The loop body of gen_ship_heat from src/heatmap/hit.rs: accumulate one
hit's normalized masked placement counts along its row and column. -/
def gen_ship_heat_step (bool_shots : Field Bool) (ship_length : Nat)
    (heat : Field ℚ) (hit : Coordinate) : Field ℚ :=
  let row := (bool_shots.get_line .Row hit.row).getD []
  let column := (bool_shots.get_line .Column hit.column).getD []
  let rp := gen_line (mask_around_hit row hit.column ship_length) ship_length
  let cp := gen_line (mask_around_hit column hit.row ship_length) ship_length
  let total_ship_count := rp.2 + cp.2
  if total_ship_count ≠ 0 then
    let row_heat := ship_counts_to_heat rp.1 total_ship_count
    let column_heat := ship_counts_to_heat cp.1 total_ship_count
    let heat := heat.merge_line .Row hit.row row_heat (· + ·)
    heat.merge_line .Column hit.column column_heat (· + ·)
  else heat

/-- gen_ship_heat from src/heatmap/hit.rs: accumulate, for every hit, the
normalized masked placement counts along that hit's row and column, then
divide by the number of hits. -/
def gen_ship_heat (bool_shots : Field Bool) (hits : List Coordinate)
    (ship_length : Nat) : Field ℚ :=
  let heat := hits.foldl (gen_ship_heat_step bool_shots ship_length)
    (Field.new_default ℚ bool_shots.width bool_shots.height)
  heat.transform_all (fun val => val / (hits.length : ℚ))

/-- hit::gen_heat from src/heatmap/hit.rs: the all-zero field when there are
no hits, otherwise the independence-combination of the per-ship fields. -/
def gen_heat (bool_shots : Field Bool) (hits : List Coordinate)
    (ship_lengths : List Nat) : Field ℚ :=
  if hits.isEmpty then Field.new_default ℚ bool_shots.width bool_shots.height
  else
    reduce_heat_fields (ship_lengths.map (fun ship_length =>
      gen_ship_heat bool_shots hits ship_length))

end HitHeat

/-- gen_heat_field from src/heatmap/mod.rs: combine the unconstrained and
hit-constrained densities, then mask every non-Untested cell to 0. -/
def gen_heat_field (shots : Field ShotStatus) (ship_lengths : List Nat) :
    Field ℚ :=
  let bool_shots := shots.transform_all ShotStatus.can_contain_ship
  let hits := shots.find_all ShotStatus.isHit
  let base_heat := Base.gen_heat bool_shots ship_lengths
  let hit_heat := HitHeat.gen_heat bool_shots hits ship_lengths
  let combined_heat := reduce_heat_fields [base_heat, hit_heat]
  mask_heat_field combined_heat shots

/-- f32::EPSILON = 2⁻²³, the tie tolerance used by generate_top_moves. -/
def eps : ℚ := 1 / 2 ^ 23

/-- The row-major (coordinate, value) cell listing that
State::generate_top_moves iterates over. -/
def cellsOf (heat_field : Field ℚ) : List (Coordinate × ℚ) :=
  (heat_field.data.enum.map (fun rl =>
    rl.2.enum.map (fun cv => (Coordinate.mk rl.1 cv.1, cv.2)))).flatten

/-- The loop body of State::generate_top_moves from src/state.rs: reset the
candidate list on a strictly larger value, append on a value within epsilon
of the running maximum (negative infinity modelled as none). -/
def top_moves_step (acc : Option ℚ × List Coordinate) (cv : Coordinate × ℚ) :
    Option ℚ × List Coordinate :=
  match acc.1 with
  | none => (some cv.2, [cv.1])
  | some max_val =>
    if cv.2 > max_val then (some cv.2, [cv.1])
    else if |cv.2 - max_val| ≤ eps then (acc.1, acc.2 ++ [cv.1])
    else acc

/-- State::generate_top_moves from src/state.rs: scan all cells row-major,
resetting on a strictly larger value and appending on a value within epsilon
of the running maximum. -/
def generate_top_moves (heat_field : Field ℚ) : List Coordinate :=
  ((cellsOf heat_field).foldl top_moves_step
    ((none : Option ℚ), ([] : List Coordinate))).2

/-- The maximum cell value of a nonempty cell list (0 on the empty list);
spec-side quantity for C9. -/
def cellsMax : List (Coordinate × ℚ) → ℚ
  | [] => 0
  | cv :: rest => rest.foldl (fun m cv => max m cv.2) cv.2

/-- Game state, from src/state.rs (struct State). -/
structure State where
  shots : Field ShotStatus
  ships : List Nat
  heat_field : Field ℚ
  top_moves : List Coordinate
  action_history : List Action
deriving DecidableEq, Repr

/-- State::new from src/state.rs. -/
def State.new (width height : Nat) (ships : List Nat) : State :=
  let shots := Field.new_default ShotStatus width height
  let heat_field := gen_heat_field shots ships
  { shots := shots
    ships := ships
    heat_field := heat_field
    top_moves := generate_top_moves heat_field
    action_history := [] }

/-- State::update from src/state.rs: recompute the cached heat field and
top-move set from the current grid and inventory. -/
def State.update (s : State) : State :=
  let heat_field := gen_heat_field s.shots s.ships
  { s with heat_field := heat_field, top_moves := generate_top_moves heat_field }

/-- Rust slice::windows: all contiguous subslices of the given length.  (The
source panics on length 0; callers pass positive ship lengths.) -/
def windows (line : List α) (length : Nat) : List (List α) :=
  (List.range (line.length + 1 - length)).map
    (fun i => (line.drop i).take length)

/-- State::generate_possible_ship_locations from src/state.rs: every fully-Hit
window of the given length along any row or column, as coordinate lists. -/
def State.generate_possible_ship_locations (s : State) (ship_length : Nat) :
    List (List Coordinate) :=
  ([Axis.Row, Axis.Column]).flatMap (fun axis =>
    (List.range (s.shots.number_of_lines_in_axis axis)).flatMap (fun index =>
      let line := (s.shots.get_line axis index).getD []
      (((windows line ship_length).enum.filter
          (fun ow => ow.2.all ShotStatus.isHit)).map (fun ow =>
        (List.range ship_length).map (fun offset =>
          ((Coordinate.mk 0 0).set_axis_index axis index).set_axis_index
            axis.opposite (ow.1 + offset))))))

/-- State::sink_ship from src/state.rs, with the interactive disambiguation
prompt abstracted as a chooser index (the source re-prompts until the index
is valid; an invalid model index falls back to the first candidate).  Errors
are returned alongside the state reached at the point of failure, since the
Rust method mutates in place before it can fail. -/
def State.sink_ship (choose : List (List Coordinate) → Nat) (s : State)
    (ship_length : Nat) : State × Option String :=
  match s.ships.findIdx? (fun ship => ship == ship_length) with
  | none => (s, some "Ship not found.")
  | some position =>
    let ship_locations := s.generate_possible_ship_locations ship_length
    if ship_locations.isEmpty then (s, some "Ship doesn't fit existing hits.")
    else
      let s := { s with ships := s.ships.eraseIdx position }
      if s.ships.isEmpty then (s, some "Game is over, go home :)")
      else
        let chosen_location :=
          if ship_locations.length = 1 then ship_locations.headD []
          else (ship_locations.get? (choose ship_locations)).getD
            (ship_locations.headD [])
        let shots := chosen_location.foldl (fun shots coord =>
          match shots.set_value coord ShotStatus.Sunk with
          | .ok shots => shots
          | .error _ => shots) s.shots
        ({ s with shots := shots }, none)

/-- The grid/inventory effect of one fully-resolved action (the execute match
inside State::take_action from src/state.rs).  Actions with Unknown arguments
and a directly executed Undo are unreachable in the source (panics) and are
totalized as errors here. -/
def State.exec_action (choose : List (List Coordinate) → Nat) (s : State) :
    Action → State × Option String
  | .Fire (.Known coord) =>
    match s.shots.set_value coord .Miss with
    | .ok shots => ({ s with shots := shots }, none)
    | .error e => (s, some e)
  | .Unfire (.Known coord) =>
    match s.shots.set_value coord .Untested with
    | .ok shots => ({ s with shots := shots }, none)
    | .error e => (s, some e)
  | .Hit (.Known coord) =>
    match s.shots.set_value coord .Hit with
    | .ok shots => ({ s with shots := shots }, none)
    | .error e => (s, some e)
  | .Sink (.Known ship_length) => s.sink_ship choose ship_length
  | .Unsink (.Known ship_length) =>
    ({ s with ships := s.ships ++ [ship_length] }, none)
  | .Fire .Unknown | .Unfire .Unknown | .Hit .Unknown
  | .Sink .Unknown | .Unsink .Unknown =>
    (s, some "unreachable: actions with unknown arguments cannot be taken")
  | .Undo => (s, some "unreachable: undos were already converted")

/-- State::take_action from src/state.rs: an Undo becomes the opposite of the
most recent history entry (popped, with no new entry pushed); other actions
are executed and appended to history; the heat field and top moves are
recomputed after every successful mutation.  A failure leaves the state as it
was at the point of failure (the source mutates in place). -/
def State.take_action (choose : List (List Coordinate) → Nat) (s : State)
    (action : Action) : State × Option String :=
  match action with
  | .Undo =>
    match s.action_history with
    | [] => (s, some "No more actions to undo.")
    | last :: rest =>
      let r := State.exec_action choose { s with action_history := rest }
        last.opposite
      match r.2 with
      | some e => (r.1, some e)
      | none => (r.1.update, none)
  | _ =>
    let r := State.exec_action choose s action
    match r.2 with
    | some e => (r.1, some e)
    | none =>
      (({ r.1 with action_history := action :: r.1.action_history }).update, none)

/-- The states reachable from State::new by take_action.  Failed actions keep
the (possibly partially mutated) state, matching the interactive loop in the
source, which keeps running on the mutated State after an error. -/
inductive Reachable : State → Prop where
  | new : ∀ width height ships, 0 < width → 0 < height → ships ≠ [] →
      Reachable (State.new width height ships)
  | step : ∀ choose s action, Reachable s →
      Reachable (State.take_action choose s action).1

/-- Run a sequence of actions through take_action, collecting each call's
error component (none = success), as the interactive loop does. -/
def run_actions (choose : List (List Coordinate) → Nat) (s : State)
    (actions : List Action) : State × List (Option String) :=
  actions.foldl (fun acc a =>
    let r := State.take_action choose acc.1 a
    (r.1, acc.2 ++ [r.2])) (s, [])

end Battleships

namespace Battleships

/-- C1: for 1 ≤ L ≤ S, gen_free_space(S, L) returns placement count S−L+1 and
per-cell values min(i+1, S−i, L, S−L+1), which equal the number of the S−L+1
length-L window placements covering position i; for L > S it returns
placement count 0 and an all-zero vector of length S. -/
theorem gen_free_space_spec (S L : Nat) :
    (1 ≤ L → L ≤ S →
      (gen_free_space S L).2 = S - L + 1 ∧
      (gen_free_space S L).1.length = S ∧
      ∀ i, i < S →
        (gen_free_space S L).1.getD i 0 =
          min (min (i + 1) (S - i)) (min L (S - L + 1)) ∧
        (gen_free_space S L).1.getD i 0 = coverCount S L i) ∧
    (S < L → gen_free_space S L = (List.replicate S 0, 0)) := by
  constructor
  · intro hL hLS
    have hnot : ¬ L > S := by omega
    constructor
    · simp [gen_free_space, hnot]
    constructor
    · simp [gen_free_space, hnot]
    · intro i hi
      have hcell : (gen_free_space S L).1.getD i 0 =
          min (min (min (i + 1) (S - i)) L) (S - L + 1) := by
        simp only [gen_free_space, hnot, if_false]
        rw [List.getD_eq_getElem?_getD, List.getElem?_map, List.getElem?_range hi]
        rfl
      constructor
      · rw [hcell]; omega
      · rw [hcell]
        have hset : (Finset.range (S - L + 1)).filter (fun j => j ≤ i ∧ i < j + L) =
            Finset.Ico (i + 1 - L) (min (i + 1) (S - L + 1)) := by
          ext j
          simp only [Finset.mem_filter, Finset.mem_range, Finset.mem_Ico]
          omega
        unfold coverCount
        rw [hset, Nat.card_Ico]
        omega
  · intro hSL
    have : L > S := hSL
    simp [gen_free_space, this]

/-- Witness for C1 at S = 5, L = 3 (and the overflow branch at S = 2, L = 3). -/
theorem gen_free_space_spec_witness :
    ((gen_free_space 5 3).2 = 5 - 3 + 1 ∧
      (gen_free_space 5 3).1.getD 1 0 = min (min (1 + 1) (5 - 1)) (min 3 (5 - 3 + 1)) ∧
      (gen_free_space 5 3).1.getD 1 0 = coverCount 5 3 1) ∧
    gen_free_space 2 3 = (List.replicate 2 0, 0) := by
  have h := gen_free_space_spec 5 3
  have h1 := h.1 (by decide) (by decide)
  have h2 := (gen_free_space_spec 2 3).2 (by decide)
  exact ⟨⟨h1.1, (h1.2.2 1 (by decide)).1, (h1.2.2 1 (by decide)).2⟩, h2⟩

/-- C2 counterexample: gen_free_space(5, 3) does not return the per-cell
counts [1, 2, 3, 3, 2] claimed by the spec. -/
theorem gen_free_space_five_three_not_spec :
    gen_free_space 5 3 ≠ ([1, 2, 3, 3, 2], 3) := by
  decide

/-- C2 (amended): gen_free_space(space = 5, ship_length = 3) yields placement
count 3 and per-cell counts [1, 2, 3, 2, 1] (symmetric coverage: the middle
cell is covered by all 3 window placements, the edges by 1). -/
theorem gen_free_space_five_three :
    gen_free_space 5 3 = ([1, 2, 3, 2, 1], 3) := by
  decide

end Battleships

namespace Battleships

theorem mem_zipWith {α β γ : Type _} {f : α → β → γ} {as : List α} {bs : List β}
    {c : γ} (h : c ∈ List.zipWith f as bs) : ∃ a ∈ as, ∃ b ∈ bs, c = f a b := by
  induction as generalizing bs with
  | nil => simp at h
  | cons a as ih =>
    cases bs with
    | nil => simp at h
    | cons b bs =>
      simp only [List.zipWith_cons_cons, List.mem_cons] at h
      rcases h with h | h
      · exact ⟨a, by simp, b, by simp, h⟩
      · obtain ⟨a2, ha, b2, hb, rfl⟩ := ih h
        exact ⟨a2, by simp [ha], b2, by simp [hb], rfl⟩

theorem Field.get_value_isSome_parts {α : Type _} {f : Field α} {c : Coordinate}
    (h : (f.get_value c).isSome) :
    ∃ row, f.data[c.row]? = some row ∧ (row[c.column]?).isSome := by
  unfold Field.get_value at h
  cases hrow : f.data[c.row]? with
  | none => rw [hrow] at h; simp at h
  | some row => rw [hrow] at h; exact ⟨row, rfl, h⟩

theorem Field.set_value_eq_ok {α : Type _} {f : Field α} {c : Coordinate} {v : α}
    {row : List α} (hrow : f.data[c.row]? = some row)
    (hcol : (row[c.column]?).isSome) :
    f.set_value c v = .ok ⟨f.data.set c.row (row.set c.column v)⟩ := by
  obtain ⟨x, hx⟩ := Option.isSome_iff_exists.mp hcol
  unfold Field.set_value
  simp only [hrow, hx]

theorem Field.get_value_after_set {α : Type _} {f : Field α} {c : Coordinate}
    {v : α} {row : List α} (hrow : f.data[c.row]? = some row)
    (hcol : (row[c.column]?).isSome) :
    (Field.mk (f.data.set c.row (row.set c.column v))).get_value c = some v := by
  have hr : c.row < f.data.length := (List.getElem?_eq_some.mp hrow).1
  obtain ⟨x, hx⟩ := Option.isSome_iff_exists.mp hcol
  have hc : c.column < row.length := (List.getElem?_eq_some.mp hx).1
  unfold Field.get_value
  simp only [List.getElem?_set_self hr, Option.some_bind]
  rw [List.getElem?_set_self (by simpa using hc)]

/-- C10: Coordinate::from_user is total only under the 1-indexed precondition:
for column ≥ 1 and row ≥ 1 it returns {row: row−1, column: column−1} and
printable() maps that coordinate back to "[column, row]"; for column = 0 or
row = 0 the unguarded usize subtraction underflows (modelled as none) instead
of returning a recoverable error. -/
theorem from_user_spec (column row : Nat) :
    (1 ≤ column → 1 ≤ row →
      Coordinate.from_user column row = some ⟨row - 1, column - 1⟩ ∧
      (Coordinate.mk (row - 1) (column - 1)).printable =
        "[" ++ toString column ++ ", " ++ toString row ++ "]") ∧
    ((column = 0 ∨ row = 0) → Coordinate.from_user column row = none) := by
  constructor
  · intro hc hr
    obtain ⟨c2, rfl⟩ : ∃ c2, column = c2 + 1 := ⟨column - 1, by omega⟩
    obtain ⟨r2, rfl⟩ : ∃ r2, row = r2 + 1 := ⟨row - 1, by omega⟩
    exact ⟨rfl, by simp [Coordinate.printable]⟩
  · rintro (rfl | rfl)
    · cases row <;> rfl
    · cases column <;> rfl

/-- Witness for C10 at column = 4, row = 2 (and the underflow case (0, 2)). -/
theorem from_user_spec_witness :
    (Coordinate.from_user 4 2 = some ⟨1, 3⟩ ∧
      (Coordinate.mk 1 3).printable = "[4, 2]") ∧
    Coordinate.from_user 0 2 = none := by
  have h1 := (from_user_spec 4 2).1 (by decide) (by decide)
  have h2 := (from_user_spec 0 2).2 (Or.inl rfl)
  exact ⟨h1, h2⟩

end Battleships

namespace Battleships

/-- C4 counterexample: with inventory [3] and a fully-hit run of length 3, the
"game is over" failure leaves the run's cells still Hit — the grid mutation
has NOT taken effect at the point of failure (only the inventory removal
has), contrary to the claim that the cells have been marked Sunk. -/
theorem sink_game_over_counterexample :
    (State.take_action (fun _ => 0)
        ⟨⟨[[.Hit, .Hit, .Hit]]⟩, [3], ⟨[]⟩, [], []⟩ (.Sink (.Known 3))).2 =
      some "Game is over, go home :)" ∧
    (State.take_action (fun _ => 0)
        ⟨⟨[[.Hit, .Hit, .Hit]]⟩, [3], ⟨[]⟩, [], []⟩ (.Sink (.Known 3))).1.ships = [] ∧
    (State.take_action (fun _ => 0)
        ⟨⟨[[.Hit, .Hit, .Hit]]⟩, [3], ⟨[]⟩, [], []⟩ (.Sink (.Known 3))).1.shots.data =
      [[.Hit, .Hit, .Hit]] := by
  refine ⟨rfl, rfl, rfl⟩

/-- C4 (amended): when Sink(Known L) finds L as the sole inventory entry and a
fully-hit run of length L exists, take_action fails with "game is over" after
the inventory removal has taken effect but BEFORE any cell is marked Sunk:
the returned state has an empty inventory and an unchanged grid. -/
theorem take_action_sink_game_over (choose : List (List Coordinate) → Nat)
    (s : State) (L : Nat) (hships : s.ships = [L])
    (hlocs : s.generate_possible_ship_locations L ≠ []) :
    State.take_action choose s (.Sink (.Known L)) =
      ({ s with ships := [] }, some "Game is over, go home :)") := by
  have hfind : s.ships.findIdx? (fun ship => ship == L) = some 0 := by
    rw [hships]
    simp [List.findIdx?_cons]
  have hempty : (s.generate_possible_ship_locations L).isEmpty = false :=
    List.isEmpty_eq_false.mpr hlocs
  have hsink : s.sink_ship choose L =
      ({ s with ships := [] }, some "Game is over, go home :)") := by
    unfold State.sink_ship
    rw [hfind]
    simp [hempty, hships]
  simp only [State.take_action, State.exec_action, hsink]

/-- Witness for C4 (amended): a 1×3 board of hits with inventory [3]. -/
theorem take_action_sink_game_over_witness :
    State.take_action (fun _ => 0)
        ⟨⟨[[.Hit, .Hit, .Hit]]⟩, [3], ⟨[]⟩, [], []⟩ (.Sink (.Known 3)) =
      (⟨⟨[[.Hit, .Hit, .Hit]]⟩, [], ⟨[]⟩, [], []⟩,
        some "Game is over, go home :)") :=
  take_action_sink_game_over (fun _ => 0)
    ⟨⟨[[.Hit, .Hit, .Hit]]⟩, [3], ⟨[]⟩, [], []⟩ 3 rfl (by decide)

/-- C5: when the inventory contains a 3 but no length-3 window of any row or
column consists entirely of Hit cells, take_action(Sink(Known 3)) fails with
"Ship doesn't fit existing hits." and leaves the whole state (inventory and
grid included) unchanged. -/
theorem take_action_sink_no_fit (choose : List (List Coordinate) → Nat)
    (s : State) (hship : 3 ∈ s.ships)
    (hnorun : ∀ axis : Axis, ∀ index < s.shots.number_of_lines_in_axis axis,
      ∀ w ∈ windows ((s.shots.get_line axis index).getD []) 3,
        ¬ w.all ShotStatus.isHit = true) :
    State.take_action choose s (.Sink (.Known 3)) =
      (s, some "Ship doesn't fit existing hits.") := by
  have hlocs : s.generate_possible_ship_locations 3 = [] := by
    unfold State.generate_possible_ship_locations
    rw [List.flatMap_eq_nil_iff]
    intro axis _
    rw [List.flatMap_eq_nil_iff]
    intro index hindex
    rw [List.mem_range] at hindex
    simp only [List.map_eq_nil_iff, List.filter_eq_nil_iff]
    rintro ⟨i, w⟩ hmem
    have hw : w ∈ windows ((s.shots.get_line axis index).getD []) 3 := by
      have := List.mem_map_of_mem Prod.snd hmem
      rwa [List.enum_map_snd] at this
    exact hnorun axis index hindex w hw
  have hp : ∃ p, s.ships.findIdx? (fun ship => ship == 3) = some p := by
    apply Option.isSome_iff_exists.mp
    rw [List.findIdx?_isSome, List.any_eq_true]
    exact ⟨3, hship, by simp⟩
  obtain ⟨p, hp⟩ := hp
  have hsink : s.sink_ship choose 3 = (s, some "Ship doesn't fit existing hits.") := by
    unfold State.sink_ship
    rw [hp]
    simp [hlocs]
  simp only [State.take_action, State.exec_action, hsink]

/-- Witness for C5: a fresh 2×2 board with inventory [3]. -/
theorem take_action_sink_no_fit_witness :
    State.take_action (fun _ => 0) (State.new 2 2 [3]) (.Sink (.Known 3)) =
      (State.new 2 2 [3], some "Ship doesn't fit existing hits.") :=
  take_action_sink_no_fit (fun _ => 0) (State.new 2 2 [3])
    (by decide) (by decide)

end Battleships

namespace Battleships

/-- C6 counterexample: on a fresh 2×1 board, firing at (0,0) and then issuing
the resolved Unfire (the inverse of the last fire) leaves TWO new entries in
the history — Unfire is a normal action and is pushed like any other — rather
than removing both entries as the claim states (the cell itself is restored
to Untested). -/
theorem fire_unfire_counterexample :
    (State.take_action (fun _ => 0)
        (State.take_action (fun _ => 0) (State.new 2 1 [2])
          (.Fire (.Known ⟨0, 0⟩))).1
        (.Unfire (.Known ⟨0, 0⟩))).1.action_history =
      [.Unfire (.Known ⟨0, 0⟩), .Fire (.Known ⟨0, 0⟩)] ∧
    (State.new 2 1 [2]).action_history = [] ∧
    (State.take_action (fun _ => 0)
        (State.take_action (fun _ => 0) (State.new 2 1 [2])
          (.Fire (.Known ⟨0, 0⟩))).1
        (.Unfire (.Known ⟨0, 0⟩))).1.shots.get_value ⟨0, 0⟩ =
      some .Untested := by
  exact ⟨rfl, rfl, rfl⟩

/-- C6 (amended): for every state and in-bounds coordinate c, Fire(Known c)
followed by Unfire(Known c) (the resolution of a bare unfire) succeeds,
restores cell c to Untested, and APPENDS both entries to the history (the
history grows by two; it is not restored). -/
theorem fire_then_unfire (choose : List (List Coordinate) → Nat) (s : State)
    (c : Coordinate) (h : (s.shots.get_value c).isSome) :
    (State.take_action choose s (.Fire (.Known c))).2 = none ∧
    (State.take_action choose (State.take_action choose s (.Fire (.Known c))).1
        (.Unfire (.Known c))).2 = none ∧
    (State.take_action choose (State.take_action choose s (.Fire (.Known c))).1
        (.Unfire (.Known c))).1.shots.get_value c = some .Untested ∧
    (State.take_action choose (State.take_action choose s (.Fire (.Known c))).1
        (.Unfire (.Known c))).1.action_history =
      .Unfire (.Known c) :: .Fire (.Known c) :: s.action_history := by
  obtain ⟨row, hrow, hcol⟩ := Field.get_value_isSome_parts h
  have hr : c.row < s.shots.data.length := (List.getElem?_eq_some.mp hrow).1
  obtain ⟨x, hx⟩ := Option.isSome_iff_exists.mp hcol
  have hc : c.column < row.length := (List.getElem?_eq_some.mp hx).1
  have hset1 := Field.set_value_eq_ok (v := ShotStatus.Miss) hrow hcol
  have hstep1 : State.take_action choose s (.Fire (.Known c)) =
      (({ s with
          shots := ⟨s.shots.data.set c.row (row.set c.column .Miss)⟩,
          action_history := .Fire (.Known c) :: s.action_history }).update,
        none) := by
    simp only [State.take_action, State.exec_action, hset1]
  have hrow1 : (s.shots.data.set c.row (row.set c.column ShotStatus.Miss))[c.row]? =
      some (row.set c.column .Miss) := List.getElem?_set_self (by simpa using hr)
  have hcol1 : ((row.set c.column ShotStatus.Miss)[c.column]?).isSome := by
    rw [List.getElem?_set_self (by simpa using hc)]
    rfl
  have hset2 := Field.set_value_eq_ok
    (f := ⟨s.shots.data.set c.row (row.set c.column ShotStatus.Miss)⟩)
    (v := ShotStatus.Untested) hrow1 hcol1
  refine ⟨by rw [hstep1], ?_, ?_, ?_⟩
  · rw [hstep1]
    simp only [State.take_action, State.exec_action, State.update, hset2]
  · rw [hstep1]
    simp only [State.take_action, State.exec_action, State.update, hset2]
    exact Field.get_value_after_set hrow1 hcol1
  · rw [hstep1]
    simp only [State.take_action, State.exec_action, State.update, hset2]

/-- Witness for C6 (amended): a fresh 2×1 board, firing then unfiring (0,0). -/
theorem fire_then_unfire_witness :
    (State.take_action (fun _ => 0) (State.new 2 1 [2])
        (.Fire (.Known ⟨0, 0⟩))).2 = none ∧
    (State.take_action (fun _ => 0)
        (State.take_action (fun _ => 0) (State.new 2 1 [2])
          (.Fire (.Known ⟨0, 0⟩))).1 (.Unfire (.Known ⟨0, 0⟩))).2 = none ∧
    (State.take_action (fun _ => 0)
        (State.take_action (fun _ => 0) (State.new 2 1 [2])
          (.Fire (.Known ⟨0, 0⟩))).1
        (.Unfire (.Known ⟨0, 0⟩))).1.shots.get_value ⟨0, 0⟩ =
      some .Untested ∧
    (State.take_action (fun _ => 0)
        (State.take_action (fun _ => 0) (State.new 2 1 [2])
          (.Fire (.Known ⟨0, 0⟩))).1
        (.Unfire (.Known ⟨0, 0⟩))).1.action_history =
      [.Unfire (.Known ⟨0, 0⟩), .Fire (.Known ⟨0, 0⟩)] :=
  fire_then_unfire (fun _ => 0) (State.new 2 1 [2]) ⟨0, 0⟩ (by decide)

end Battleships

namespace Battleships

theorem set_replicate_self {α : Type _} (a : α) (n i : Nat) :
    (List.replicate n a).set i a = List.replicate n a := by
  induction n generalizing i with
  | zero => rfl
  | succ n ih =>
    cases i with
    | zero => simp [List.replicate_succ]
    | succ i => simp [List.replicate_succ, ih]

theorem State.update_shots (s : State) : s.update.shots = s.shots := rfl

theorem State.update_ships (s : State) : s.update.ships = s.ships := rfl

theorem State.update_history (s : State) :
    s.update.action_history = s.action_history := rfl

theorem State.sink_ship_history (choose : List (List Coordinate) → Nat)
    (s : State) (L : Nat) :
    (s.sink_ship choose L).1.action_history = s.action_history := by
  unfold State.sink_ship
  cases s.ships.findIdx? (fun ship => ship == L) with
  | none => rfl
  | some p =>
    dsimp only
    split
    · rfl
    · split
      · rfl
      · rfl

theorem State.exec_action_history (choose : List (List Coordinate) → Nat)
    (s : State) (a : Action) :
    (State.exec_action choose s a).1.action_history = s.action_history := by
  cases a with
  | Fire arg =>
    cases arg with
    | Known c =>
      simp only [State.exec_action]
      cases s.shots.set_value c .Miss <;> rfl
    | Unknown => rfl
  | Hit arg =>
    cases arg with
    | Known c =>
      simp only [State.exec_action]
      cases s.shots.set_value c .Hit <;> rfl
    | Unknown => rfl
  | Unfire arg =>
    cases arg with
    | Known c =>
      simp only [State.exec_action]
      cases s.shots.set_value c .Untested <;> rfl
    | Unknown => rfl
  | Sink arg =>
    cases arg with
    | Known L => exact State.sink_ship_history choose s L
    | Unknown => rfl
  | Unsink arg => cases arg <;> rfl
  | Undo => rfl

/-- C8: take_action(Undo) on an empty history fails with "no more actions to
undo" and leaves the state fully unchanged; on a non-empty history it pops
the most recent entry, executes that entry's opposite() against the
grid/inventory, and pushes no new entry, so the history is exactly the
popped tail. -/
theorem take_action_undo_spec (choose : List (List Coordinate) → Nat)
    (s : State) :
    (s.action_history = [] →
      State.take_action choose s .Undo = (s, some "No more actions to undo.")) ∧
    (∀ last rest, s.action_history = last :: rest →
      (State.take_action choose s .Undo).1.action_history = rest ∧
      (State.take_action choose s .Undo).1.shots =
        (State.exec_action choose { s with action_history := rest }
          last.opposite).1.shots ∧
      (State.take_action choose s .Undo).1.ships =
        (State.exec_action choose { s with action_history := rest }
          last.opposite).1.ships ∧
      (State.take_action choose s .Undo).2 =
        (State.exec_action choose { s with action_history := rest }
          last.opposite).2) := by
  constructor
  · intro hnil
    simp only [State.take_action, hnil]
  · intro last rest hcons
    simp only [State.take_action, hcons]
    cases hres : (State.exec_action choose { s with action_history := rest }
        last.opposite).2 with
    | none =>
      refine ⟨?_, rfl, rfl, rfl⟩
      rw [State.update_history, State.exec_action_history]
    | some e =>
      refine ⟨?_, rfl, rfl, rfl⟩
      rw [State.exec_action_history]

/-- Witness for C8: the empty-history failure on a fresh 1×1 state, and the
pop on a state whose history holds one Fire. -/
theorem take_action_undo_spec_witness :
    State.take_action (fun _ => 0) ⟨⟨[[.Untested]]⟩, [2], ⟨[]⟩, [], []⟩ .Undo =
      (⟨⟨[[.Untested]]⟩, [2], ⟨[]⟩, [], []⟩, some "No more actions to undo.") ∧
    (State.take_action (fun _ => 0)
        ⟨⟨[[.Miss]]⟩, [2], ⟨[]⟩, [], [.Fire (.Known ⟨0, 0⟩)]⟩
        .Undo).1.action_history = [] := by
  constructor
  · exact (take_action_undo_spec (fun _ => 0) _).1 rfl
  · exact ((take_action_undo_spec (fun _ => 0)
      ⟨⟨[[.Miss]]⟩, [2], ⟨[]⟩, [], [.Fire (.Known ⟨0, 0⟩)]⟩).2
      (.Fire (.Known ⟨0, 0⟩)) [] rfl).1

end Battleships

namespace Battleships

/-- C7: on a fresh board, Fire(c), Hit(c), Undo, Undo all succeed and return
the grid to all-Untested with an empty history. -/
theorem default_shot_status : (default : ShotStatus) = .Untested := rfl

theorem fire_hit_undo_undo (choose : List (List Coordinate) → Nat)
    (width height : Nat) (ships : List Nat) (c : Coordinate)
    (hr : c.row < height) (hc : c.column < width) :
    (run_actions choose (State.new width height ships)
        [.Fire (.Known c), .Hit (.Known c), .Undo, .Undo]).2 =
      [none, none, none, none] ∧
    (run_actions choose (State.new width height ships)
        [.Fire (.Known c), .Hit (.Known c), .Undo, .Undo]).1.shots.data =
      List.replicate height (List.replicate width ShotStatus.Untested) ∧
    (run_actions choose (State.new width height ships)
        [.Fire (.Known c), .Hit (.Known c), .Undo, .Undo]).1.action_history =
      [] := by
  have hrow0 :
      (List.replicate height (List.replicate width ShotStatus.Untested))[c.row]? =
        some (List.replicate width ShotStatus.Untested) := by
    rw [List.getElem?_replicate, if_pos hr]
  have hcol0 :
      ((List.replicate width ShotStatus.Untested)[c.column]?).isSome := by
    rw [List.getElem?_replicate, if_pos hc]
    rfl
  have hcol0h :
      (((List.replicate width ShotStatus.Untested).set c.column
        ShotStatus.Miss)[c.column]?).isSome := by
    rw [List.getElem?_set_self (by simpa using hc)]
    rfl
  have hcol0u :
      (((List.replicate width ShotStatus.Untested).set c.column
        ShotStatus.Hit)[c.column]?).isSome := by
    rw [List.getElem?_set_self (by simpa using hc)]
    rfl
  have hset1 : (Field.mk (List.replicate height
        (List.replicate width ShotStatus.Untested))).set_value c .Miss =
      .ok ⟨(List.replicate height (List.replicate width ShotStatus.Untested)).set
        c.row ((List.replicate width ShotStatus.Untested).set c.column .Miss)⟩ :=
    Field.set_value_eq_ok hrow0 hcol0
  have hrow1 :
      ((List.replicate height (List.replicate width ShotStatus.Untested)).set
        c.row ((List.replicate width ShotStatus.Untested).set c.column
          ShotStatus.Miss))[c.row]? =
        some ((List.replicate width ShotStatus.Untested).set c.column .Miss) :=
    List.getElem?_set_self (by simpa using hr)
  have hset2 :
      (Field.mk ((List.replicate height
          (List.replicate width ShotStatus.Untested)).set c.row
        ((List.replicate width ShotStatus.Untested).set c.column
          ShotStatus.Miss))).set_value c .Hit =
      .ok ⟨(List.replicate height (List.replicate width ShotStatus.Untested)).set
        c.row ((List.replicate width ShotStatus.Untested).set c.column .Hit)⟩ := by
    rw [Field.set_value_eq_ok hrow1 hcol0h]
    simp [List.set_set]
  have hrow2 :
      ((List.replicate height (List.replicate width ShotStatus.Untested)).set
        c.row ((List.replicate width ShotStatus.Untested).set c.column
          ShotStatus.Hit))[c.row]? =
        some ((List.replicate width ShotStatus.Untested).set c.column .Hit) :=
    List.getElem?_set_self (by simpa using hr)
  have hset3 :
      (Field.mk ((List.replicate height
          (List.replicate width ShotStatus.Untested)).set c.row
        ((List.replicate width ShotStatus.Untested).set c.column
          ShotStatus.Hit))).set_value c .Untested =
      .ok ⟨List.replicate height (List.replicate width ShotStatus.Untested)⟩ := by
    rw [Field.set_value_eq_ok hrow2 hcol0u]
    simp [List.set_set, set_replicate_self]
  have hset4 : (Field.mk (List.replicate height
        (List.replicate width ShotStatus.Untested))).set_value c .Untested =
      .ok ⟨List.replicate height (List.replicate width ShotStatus.Untested)⟩ := by
    rw [Field.set_value_eq_ok hrow0 hcol0]
    simp [set_replicate_self]
  simp only [run_actions, List.foldl_cons, List.foldl_nil, State.take_action,
    State.exec_action, State.new, Field.new_default, State.update,
    Action.opposite, default_shot_status, hset1, hset2, hset3, hset4,
    List.nil_append, List.cons_append, List.append_nil]
  exact ⟨trivial, trivial, trivial⟩

/-- Witness for C7: a fresh 2×2 board with inventory [2], firing at (1,0). -/
theorem fire_hit_undo_undo_witness :
    (run_actions (fun _ => 0) (State.new 2 2 [2])
        [.Fire (.Known ⟨1, 0⟩), .Hit (.Known ⟨1, 0⟩), .Undo, .Undo]).2 =
      [none, none, none, none] ∧
    (run_actions (fun _ => 0) (State.new 2 2 [2])
        [.Fire (.Known ⟨1, 0⟩), .Hit (.Known ⟨1, 0⟩), .Undo, .Undo]).1.shots.data =
      List.replicate 2 (List.replicate 2 ShotStatus.Untested) ∧
    (run_actions (fun _ => 0) (State.new 2 2 [2])
        [.Fire (.Known ⟨1, 0⟩), .Hit (.Known ⟨1, 0⟩), .Undo, .Undo]).1.action_history =
      [] :=
  fire_hit_undo_undo (fun _ => 0) 2 2 [2] ⟨1, 0⟩ (by decide) (by decide)

end Battleships

namespace Battleships

theorem gen_free_space_cell_le (space L : Nat) :
    ∀ v ∈ (gen_free_space space L).1, v ≤ (gen_free_space space L).2 := by
  intro v hv
  by_cases h : L > space
  · simp only [gen_free_space, if_pos h] at hv ⊢
    exact (List.eq_of_mem_replicate hv).le
  · simp only [gen_free_space, if_neg h] at hv ⊢
    obtain ⟨i, _, rfl⟩ := List.mem_map.mp hv
    exact min_le_right _ _

theorem gen_line_fold_le (L : Nat) (streaks : List (Nat × Bool)) :
    ∀ (acc : List Nat × Nat), (∀ v ∈ acc.1, v ≤ acc.2) →
      ∀ v ∈ (streaks.foldl (gen_line_step L) acc).1,
        v ≤ (streaks.foldl (gen_line_step L) acc).2 := by
  induction streaks with
  | nil => intro acc hacc; simpa using hacc
  | cons s rest ih =>
    intro acc hacc
    rw [List.foldl_cons]
    apply ih
    obtain ⟨n, b⟩ := s
    cases b with
    | false =>
      intro v hv
      rcases List.mem_append.mp hv with h | h
      · exact hacc v h
      · simp [List.eq_of_mem_replicate h]
    | true =>
      intro v hv
      rcases List.mem_append.mp hv with h | h
      · exact le_trans (hacc v h) (Nat.le_add_right _ _)
      · exact le_trans (gen_free_space_cell_le _ _ v h) (Nat.le_add_left _ _)

theorem gen_line_cell_le (l : List Bool) (L : Nat) :
    ∀ v ∈ (gen_line l L).1, v ≤ (gen_line l L).2 := by
  unfold gen_line
  exact gen_line_fold_le L (get_streaks l) ([], 0) (by simp)

theorem mem_le_sum_nat {x : Nat} {l : List Nat} (h : x ∈ l) : x ≤ l.sum :=
  List.single_le_sum (fun _ _ => Nat.zero_le _) x h

theorem mem_getD_cases {α : Type _} (l : List α) (i : Nat) (d : α) :
    l.getD i d = d ∨ l.getD i d ∈ l := by
  rw [List.getD_eq_getElem?_getD]
  cases h : l[i]? with
  | none => simp
  | some x =>
    right
    simp only [Option.getD_some]
    obtain ⟨hlt, hEq⟩ := List.getElem?_eq_some.mp h
    rw [← hEq]
    exact l.getElem_mem hlt

theorem gen_ship_counts_cell_le (bs : Field Bool) (L : Nat) :
    ∀ v ∈ (Base.gen_ship_counts bs L).1.values, v ≤ (Base.gen_ship_counts bs L).2 := by
  have hgen : ∀ (ps : List (List Nat × Nat)) (cidx r : Nat),
      (∀ p ∈ ps, ∀ x ∈ p.1, x ≤ p.2) →
      (ps.getD cidx ([], 0)).1.getD r 0 ≤ (ps.map Prod.snd).sum := by
    intro ps cidx r hp
    rcases mem_getD_cases (ps.getD cidx ([], 0)).1 r 0 with h0 | hmem
    · rw [h0]; exact Nat.zero_le _
    · rcases mem_getD_cases ps cidx ([], 0) with h1 | hmem1
      · rw [h1] at hmem; simp at hmem
      · exact le_trans (hp _ hmem1 _ hmem)
          (mem_le_sum_nat (List.mem_map_of_mem Prod.snd hmem1))
  intro v hv
  simp only [Base.gen_ship_counts, Field.values] at hv ⊢
  obtain ⟨rowline, hrowline, hvrow⟩ := List.mem_flatten.mp hv
  obtain ⟨ra, hra, rb, hrb, rfl⟩ := mem_zipWith hrowline
  obtain ⟨a, ha, b, hb, rfl⟩ := mem_zipWith hvrow
  have hA : a ≤ ((bs.data.map (fun line => gen_line line L)).map Prod.snd).sum := by
    obtain ⟨p, hp, rfl⟩ := List.mem_map.mp hra
    obtain ⟨line, hline, rfl⟩ := List.mem_map.mp hp
    exact le_trans (gen_line_cell_le line L a ha)
      (mem_le_sum_nat (List.mem_map_of_mem Prod.snd
        (List.mem_map_of_mem (fun line => gen_line line L) hline)))
  have hB : b ≤ ((((List.range bs.width).map
      (fun i => bs.data.map (fun row => row.getD i false))).map
        (fun line => gen_line line L)).map Prod.snd).sum := by
    obtain ⟨r, hr, rfl⟩ := List.mem_map.mp hrb
    obtain ⟨cidx, hcidx, rfl⟩ := List.mem_map.mp hb
    apply hgen
    intro p hp x hx
    obtain ⟨line, _, rfl⟩ := List.mem_map.mp hp
    exact gen_line_cell_le line L x hx
  omega

end Battleships

namespace Battleships

theorem values_transform {α β : Type _} (f : Field α) (g : α → β) :
    (f.transform_all g).values = f.values.map g := by
  simp [Field.transform_all, Field.values, List.map_flatten]

theorem mem_values_merge {α β γ : Type _} {f : Field α} {o : Field β}
    {g : α → β → γ} {v : γ} (h : v ∈ (f.merge_fields o g).values) :
    ∃ a ∈ f.values, ∃ b ∈ o.values, v = g a b := by
  simp only [Field.merge_fields, Field.values] at h ⊢
  obtain ⟨row, hrow, hv⟩ := List.mem_flatten.mp h
  obtain ⟨ra, hra, rb, hrb, rfl⟩ := mem_zipWith hrow
  obtain ⟨a, ha, b, hb, rfl⟩ := mem_zipWith hv
  exact ⟨a, List.mem_flatten.mpr ⟨ra, hra, ha⟩, b,
    List.mem_flatten.mpr ⟨rb, hrb, hb⟩, rfl⟩

theorem values_new_default (w h : Nat) :
    ∀ v ∈ (Field.new_default ℚ w h).values, v = 0 := by
  intro v hv
  simp only [Field.new_default, Field.values] at hv
  obtain ⟨row, hrow, hv⟩ := List.mem_flatten.mp hv
  rw [List.eq_of_mem_replicate hrow] at hv
  exact (List.eq_of_mem_replicate hv).trans rfl

theorem foldl_merge_mul_ok (rest : List (Field ℚ)) :
    ∀ (acc : Field ℚ), (∀ v ∈ acc.values, 0 ≤ v ∧ v ≤ 1) →
      (∀ f ∈ rest, ∀ v ∈ f.values, 0 ≤ v ∧ v ≤ 1) →
      ∀ v ∈ (rest.foldl (fun acc e => acc.merge_fields e (fun a b => a * b))
          acc).values, 0 ≤ v ∧ v ≤ 1 := by
  induction rest with
  | nil => intro acc hacc _; simpa using hacc
  | cons f rest ih =>
    intro acc hacc hrest
    rw [List.foldl_cons]
    apply ih
    · intro v hv
      obtain ⟨a, ha, b, hb, rfl⟩ := mem_values_merge hv
      obtain ⟨ha0, ha1⟩ := hacc a ha
      obtain ⟨hb0, hb1⟩ := hrest f (by simp) b hb
      exact ⟨mul_nonneg ha0 hb0, mul_le_one₀ ha1 hb0 hb1⟩
    · intro g hg
      exact hrest g (by simp [hg])

theorem reduce_heat_fields_ok (fields : List (Field ℚ))
    (hall : ∀ f ∈ fields, ∀ v ∈ f.values, 0 ≤ v ∧ v ≤ 1) :
    ∀ v ∈ (reduce_heat_fields fields).values, 0 ≤ v ∧ v ≤ 1 := by
  cases fields with
  | nil => intro v hv; simp [reduce_heat_fields, Field.values] at hv
  | cons f rest =>
    intro v hv
    simp only [reduce_heat_fields, List.map_cons] at hv
    rw [values_transform] at hv
    obtain ⟨a, ha, rfl⟩ := List.mem_map.mp hv
    have hfold := foldl_merge_mul_ok
      (rest.map (fun field => field.transform_all (fun val => 1 - val)))
      (f.transform_all (fun val => 1 - val))
      (by
        intro v hv
        rw [values_transform] at hv
        obtain ⟨b, hb, rfl⟩ := List.mem_map.mp hv
        obtain ⟨h0, h1⟩ := hall f (by simp) b hb
        constructor <;> linarith)
      (by
        intro g hg v hv
        obtain ⟨e, he, rfl⟩ := List.mem_map.mp hg
        rw [values_transform] at hv
        obtain ⟨b, hb, rfl⟩ := List.mem_map.mp hv
        obtain ⟨h0, h1⟩ := hall e (by simp [he]) b hb
        constructor <;> linarith)
      a ha
    obtain ⟨h0, h1⟩ := hfold
    constructor <;> linarith

theorem base_gen_heat_ok (bs : Field Bool) (ships : List Nat) :
    ∀ v ∈ (Base.gen_heat bs ships).values, 0 ≤ v ∧ v ≤ 1 := by
  apply reduce_heat_fields_ok
  intro f hf
  obtain ⟨L, hL, rfl⟩ := List.mem_map.mp hf
  intro v hv
  dsimp only at hv
  split at hv
  next h =>
    have := values_new_default bs.width bs.height v hv
    constructor <;> simp [this]
  next h =>
    unfold Base.ship_counts_to_heat at hv
    rw [values_transform] at hv
    obtain ⟨c, hc, rfl⟩ := List.mem_map.mp hv
    have hle := gen_ship_counts_cell_le bs L c hc
    have hpos : 0 < ((Base.gen_ship_counts bs L).2 : ℚ) := by
      exact_mod_cast Nat.pos_of_ne_zero h
    constructor
    · positivity
    · rw [div_le_one hpos]
      exact_mod_cast hle

end Battleships

namespace Battleships

theorem mem_set_list {α : Type _} {l : List α} {i : Nat} {a x : α}
    (h : x ∈ l.set i a) : x = a ∨ x ∈ l := by
  induction l generalizing i with
  | nil => simp at h
  | cons y ys ih =>
    cases i with
    | zero =>
      rw [List.set_cons_zero] at h
      rcases List.mem_cons.mp h with h | h
      · exact Or.inl h
      · exact Or.inr (List.mem_cons.mpr (Or.inr h))
    | succ i =>
      rw [List.set_cons_succ] at h
      rcases List.mem_cons.mp h with h | h
      · exact Or.inr (by simp [h])
      · rcases ih h with h | h
        · exact Or.inl h
        · exact Or.inr (by simp [h])

theorem mem_get_line_q {f : Field ℚ} {axis : Axis} {index : Nat} {l : List ℚ}
    (h : f.get_line axis index = some l) : ∀ x ∈ l, x ∈ f.values ∨ x = 0 := by
  intro x hx
  unfold Field.get_line at h
  split at h
  · exact absurd h (by simp)
  · cases axis with
    | Row =>
      obtain ⟨hlt, hEq⟩ := List.getElem?_eq_some.mp h
      left
      rw [← hEq] at hx
      exact List.mem_flatten.mpr ⟨_, f.data.getElem_mem hlt, hx⟩
    | Column =>
      obtain rfl : f.data.map (fun row => row.getD index default) = l :=
        Option.some_inj.mp h
      obtain ⟨row, hrow, rfl⟩ := List.mem_map.mp hx
      rcases mem_getD_cases row index default with h0 | hmem
      · right
        exact h0.trans rfl
      · left
        exact List.mem_flatten.mpr ⟨row, hrow, hmem⟩

theorem mem_set_line_values {α : Type _} {f : Field α} {axis : Axis}
    {index : Nat} {line : List α} {v : α}
    (h : v ∈ (f.set_line axis index line).values) : v ∈ line ∨ v ∈ f.values := by
  cases axis with
  | Row =>
    simp only [Field.set_line, Field.values] at h ⊢
    obtain ⟨row, hrow, hv⟩ := List.mem_flatten.mp h
    rcases mem_set_list hrow with rfl | hrow2
    · exact Or.inl hv
    · exact Or.inr (List.mem_flatten.mpr ⟨row, hrow2, hv⟩)
  | Column =>
    simp only [Field.set_line, Field.values] at h ⊢
    obtain ⟨row, hrow, hv⟩ := List.mem_flatten.mp h
    rcases List.mem_append.mp hrow with hrow | hrow
    · obtain ⟨r0, hr0, x, hx, rfl⟩ := mem_zipWith hrow
      rcases mem_set_list hv with rfl | hv2
      · exact Or.inl hx
      · exact Or.inr (List.mem_flatten.mpr ⟨r0, hr0, hv2⟩)
    · exact Or.inr (List.mem_flatten.mpr ⟨row, List.mem_of_mem_drop hrow, hv⟩)

theorem merge_line_add_bound (f : Field ℚ) (axis : Axis) (index : Nat)
    (line : List ℚ) (B C : ℚ) (hB : 0 ≤ B) (hC : 0 ≤ C)
    (hf : ∀ v ∈ f.values, 0 ≤ v ∧ v ≤ B)
    (hline : ∀ x ∈ line, 0 ≤ x ∧ x ≤ C) :
    ∀ v ∈ (f.merge_line axis index line (· + ·)).values, 0 ≤ v ∧ v ≤ B + C := by
  intro v hv
  unfold Field.merge_line at hv
  dsimp only at hv
  rcases mem_set_line_values hv with hv | hv
  · obtain ⟨a, ha, x, hx, rfl⟩ := mem_zipWith hv
    have hxb := hline x hx
    have hab : 0 ≤ a ∧ a ≤ B := by
      cases hgl : f.get_line axis index with
      | none => rw [hgl] at ha; simp at ha
      | some l =>
        rw [hgl] at ha
        simp only [Option.getD_some] at ha
        rcases mem_get_line_q hgl a ha with h | h
        · exact hf a h
        · rw [h]; exact ⟨le_refl 0, hB⟩
    constructor
    · linarith [hab.1, hxb.1]
    · linarith [hab.2, hxb.2]
  · have hvb := hf v hv
    exact ⟨hvb.1, by linarith [hvb.2]⟩

theorem hit_line_heat_bounds (counts : List Nat) (bound total : Nat)
    (htot : total ≠ 0) (hle : ∀ c ∈ counts, c ≤ bound) :
    ∀ x ∈ HitHeat.ship_counts_to_heat counts total,
      0 ≤ x ∧ x ≤ (bound : ℚ) / (total : ℚ) := by
  intro x hx
  unfold HitHeat.ship_counts_to_heat at hx
  obtain ⟨c, hc, rfl⟩ := List.mem_map.mp hx
  have hpos : 0 < (total : ℚ) := by exact_mod_cast Nat.pos_of_ne_zero htot
  constructor
  · positivity
  · rw [div_le_div_iff_of_pos_right hpos]
    exact_mod_cast hle c hc

end Battleships

namespace Battleships


theorem gen_ship_heat_step_ok (bs : Field Bool) (L : Nat) (hit : Coordinate)
    (acc : Field ℚ) (k : ℚ) (hk : 0 ≤ k)
    (hacc : ∀ v ∈ acc.values, 0 ≤ v ∧ v ≤ k) :
    ∀ v ∈ (HitHeat.gen_ship_heat_step bs L acc hit).values, 0 ≤ v ∧ v ≤ k + 1 := by
  intro v hv
  unfold HitHeat.gen_ship_heat_step at hv
  dsimp only at hv
  split at hv
  next htot =>
    set rp := gen_line (HitHeat.mask_around_hit ((bs.get_line .Row hit.row).getD [])
      hit.column L) L with hrp
    set cp := gen_line (HitHeat.mask_around_hit ((bs.get_line .Column hit.column).getD [])
      hit.row L) L with hcp
    have htot2 : rp.2 + cp.2 ≠ 0 := htot
    have hpos : 0 < ((rp.2 + cp.2 : Nat) : ℚ) := by
      exact_mod_cast Nat.pos_of_ne_zero htot2
    have hsum : (rp.2 : ℚ) / ((rp.2 + cp.2 : Nat) : ℚ) +
        (cp.2 : ℚ) / ((rp.2 + cp.2 : Nat) : ℚ) = 1 := by
      rw [div_add_div_same, div_eq_one_iff_eq (ne_of_gt hpos)]
      push_cast
      ring
    have hrle : ∀ c ∈ rp.1, c ≤ rp.2 := by rw [hrp]; exact gen_line_cell_le _ _
    have hcle : ∀ c ∈ cp.1, c ≤ cp.2 := by rw [hcp]; exact gen_line_cell_le _ _
    have hdnr : (0 : ℚ) ≤ (rp.2 : ℚ) / ((rp.2 + cp.2 : Nat) : ℚ) := by positivity
    have hdnc : (0 : ℚ) ≤ (cp.2 : ℚ) / ((rp.2 + cp.2 : Nat) : ℚ) := by positivity
    have h1 := merge_line_add_bound acc .Row hit.row
      (HitHeat.ship_counts_to_heat rp.1 (rp.2 + cp.2)) k
      ((rp.2 : ℚ) / ((rp.2 + cp.2 : Nat) : ℚ)) hk hdnr hacc
      (hit_line_heat_bounds rp.1 rp.2 (rp.2 + cp.2) htot2 hrle)
    have h2 := merge_line_add_bound
      (acc.merge_line .Row hit.row
        (HitHeat.ship_counts_to_heat rp.1 (rp.2 + cp.2)) (· + ·))
      .Column hit.column
      (HitHeat.ship_counts_to_heat cp.1 (rp.2 + cp.2))
      (k + (rp.2 : ℚ) / ((rp.2 + cp.2 : Nat) : ℚ))
      ((cp.2 : ℚ) / ((rp.2 + cp.2 : Nat) : ℚ)) (by linarith) hdnc h1
      (hit_line_heat_bounds cp.1 cp.2 (rp.2 + cp.2) htot2 hcle)
    have hb := h2 v hv
    exact ⟨hb.1, by linarith [hb.2]⟩
  next htot =>
    have := hacc v hv
    exact ⟨this.1, by linarith [this.2]⟩

theorem gen_ship_heat_fold_ok (bs : Field Bool) (L : Nat)
    (hits : List Coordinate) :
    ∀ (acc : Field ℚ) (k : ℚ), 0 ≤ k →
      (∀ v ∈ acc.values, 0 ≤ v ∧ v ≤ k) →
      ∀ v ∈ (hits.foldl (HitHeat.gen_ship_heat_step bs L) acc).values,
        0 ≤ v ∧ v ≤ k + hits.length := by
  induction hits with
  | nil =>
    intro acc k hk hacc v hv
    have := hacc v hv
    refine ⟨this.1, ?_⟩
    simpa using this.2
  | cons hit rest ih =>
    intro acc k hk hacc v hv
    rw [List.foldl_cons] at hv
    have hres := ih (HitHeat.gen_ship_heat_step bs L acc hit) (k + 1)
      (by linarith) (gen_ship_heat_step_ok bs L hit acc k hk hacc) v hv
    refine ⟨hres.1, ?_⟩
    have h2 := hres.2
    simp only [List.length_cons]
    push_cast at h2 ⊢
    linarith

theorem gen_ship_heat_ok (bs : Field Bool) (hits : List Coordinate) (L : Nat) :
    ∀ v ∈ (HitHeat.gen_ship_heat bs hits L).values, 0 ≤ v ∧ v ≤ 1 := by
  intro v hv
  unfold HitHeat.gen_ship_heat at hv
  dsimp only at hv
  rw [values_transform] at hv
  obtain ⟨a, ha, rfl⟩ := List.mem_map.mp hv
  have hbound := gen_ship_heat_fold_ok bs L hits
    (Field.new_default ℚ bs.width bs.height) 0 le_rfl
    (by
      intro v hv
      have := values_new_default _ _ v hv
      simp [this])
    a ha
  rcases Nat.eq_zero_or_pos hits.length with hlen | hlen
  · have ha0 : a = 0 := by
      have h2 := hbound.2
      rw [hlen] at h2
      simp only [Nat.cast_zero, zero_add, add_zero] at h2
      linarith [hbound.1]
    rw [ha0]
    simp
  · have hpos : 0 < (hits.length : ℚ) := by exact_mod_cast hlen
    constructor
    · have := hbound.1
      positivity
    · rw [div_le_one hpos]
      have := hbound.2
      linarith

theorem hit_gen_heat_ok (bs : Field Bool) (hits : List Coordinate)
    (ships : List Nat) :
    ∀ v ∈ (HitHeat.gen_heat bs hits ships).values, 0 ≤ v ∧ v ≤ 1 := by
  unfold HitHeat.gen_heat
  split
  · intro v hv
    have := values_new_default _ _ v hv
    simp [this]
  · apply reduce_heat_fields_ok
    intro f hf
    obtain ⟨L, hL, rfl⟩ := List.mem_map.mp hf
    exact gen_ship_heat_ok bs hits L

end Battleships

namespace Battleships

theorem get_value_merge {α β γ : Type _} {f : Field α} {o : Field β}
    {g : α → β → γ} {coord : Coordinate} {v : γ}
    (h : (f.merge_fields o g).get_value coord = some v) :
    ∃ a b, f.get_value coord = some a ∧ o.get_value coord = some b ∧
      v = g a b := by
  unfold Field.get_value at h ⊢
  unfold Field.merge_fields at h
  dsimp only at h
  rw [List.getElem?_zipWith] at h
  cases hfa : f.data[coord.row]? with
  | none => rw [hfa] at h; simp at h
  | some ra =>
    cases hob : o.data[coord.row]? with
    | none => rw [hfa, hob] at h; simp at h
    | some rb =>
      rw [hfa, hob] at h
      simp only [Option.some_bind] at h
      rw [List.getElem?_zipWith] at h
      cases hca : ra[coord.column]? with
      | none => rw [hca] at h; simp at h
      | some a =>
        cases hcb : rb[coord.column]? with
        | none => rw [hca, hcb] at h; simp at h
        | some b =>
          rw [hca, hcb] at h
          refine ⟨a, b, ?_, ?_, ?_⟩
          · simp only [Option.some_bind]
            exact hca
          · simp only [Option.some_bind]
            exact hcb
          · exact (Option.some_inj.mp h).symm

theorem get_value_mem_values {α : Type _} {f : Field α} {coord : Coordinate}
    {v : α} (h : f.get_value coord = some v) : v ∈ f.values := by
  unfold Field.get_value at h
  cases hr : f.data[coord.row]? with
  | none => rw [hr] at h; simp at h
  | some row =>
    rw [hr] at h
    simp only [Option.some_bind] at h
    obtain ⟨hlt, hEq⟩ := List.getElem?_eq_some.mp h
    obtain ⟨hlt2, hEq2⟩ := List.getElem?_eq_some.mp hr
    refine List.mem_flatten.mpr ⟨row, ?_, ?_⟩
    · rw [← hEq2]; exact f.data.getElem_mem hlt2
    · rw [← hEq]; exact row.getElem_mem hlt

theorem gen_heat_field_cell (shots : Field ShotStatus) (ships : List Nat)
    (coord : Coordinate) (v : ℚ)
    (h : (gen_heat_field shots ships).get_value coord = some v) :
    (0 ≤ v ∧ v ≤ 1) ∧
    ∀ st, shots.get_value coord = some st → st ≠ .Untested → v = 0 := by
  unfold gen_heat_field at h
  dsimp only at h
  unfold mask_heat_field at h
  obtain ⟨a, st2, ha, hst2, rfl⟩ := get_value_merge h
  have hcomb : 0 ≤ a ∧ a ≤ 1 := by
    refine reduce_heat_fields_ok _ ?_ a (get_value_mem_values ha)
    intro f hf
    rcases List.mem_cons.mp hf with rfl | hf
    · exact base_gen_heat_ok _ ships
    · rcases List.mem_cons.mp hf with rfl | hf
      · exact hit_gen_heat_ok _ _ ships
      · simp at hf
  constructor
  · cases st2 <;> simp_all
  · intro st hst hne
    have hsame : st2 = st := by
      rw [hst2] at hst
      exact Option.some_inj.mp hst
    subst hsame
    cases st2 with
    | Untested => exact absurd rfl hne
    | Miss => rfl
    | Hit => rfl
    | Sunk => rfl

end Battleships

namespace Battleships

theorem State.sink_ship_frame (choose : List (List Coordinate) → Nat)
    (s : State) (L : Nat) :
    (s.sink_ship choose L).1.heat_field = s.heat_field ∧
    (s.sink_ship choose L).1.top_moves = s.top_moves := by
  unfold State.sink_ship
  cases s.ships.findIdx? (fun ship => ship == L) with
  | none => exact ⟨rfl, rfl⟩
  | some p =>
    dsimp only
    split
    · exact ⟨rfl, rfl⟩
    · split
      · exact ⟨rfl, rfl⟩
      · exact ⟨rfl, rfl⟩

theorem State.sink_ship_shots_or (choose : List (List Coordinate) → Nat)
    (s : State) (L : Nat) :
    (s.sink_ship choose L).2 = none ∨
    (s.sink_ship choose L).1.shots = s.shots := by
  unfold State.sink_ship
  cases hfind : s.ships.findIdx? (fun ship => ship == L) with
  | none => right; rfl
  | some p =>
    dsimp only
    split
    · right; rfl
    · split
      · right; rfl
      · left; rfl

theorem State.exec_action_shots_or (choose : List (List Coordinate) → Nat)
    (s : State) (a : Action) :
    (State.exec_action choose s a).2 = none ∨
    (State.exec_action choose s a).1.shots = s.shots := by
  cases a with
  | Fire arg =>
    cases arg with
    | Known c =>
      simp only [State.exec_action]
      cases s.shots.set_value c .Miss with
      | ok g => left; rfl
      | error e2 => right; rfl
    | Unknown => right; rfl
  | Hit arg =>
    cases arg with
    | Known c =>
      simp only [State.exec_action]
      cases s.shots.set_value c .Hit with
      | ok g => left; rfl
      | error e2 => right; rfl
    | Unknown => right; rfl
  | Unfire arg =>
    cases arg with
    | Known c =>
      simp only [State.exec_action]
      cases s.shots.set_value c .Untested with
      | ok g => left; rfl
      | error e2 => right; rfl
    | Unknown => right; rfl
  | Sink arg =>
    cases arg with
    | Known L => exact State.sink_ship_shots_or choose s L
    | Unknown => right; rfl
  | Unsink arg =>
    cases arg with
    | Known L => left; rfl
    | Unknown => right; rfl
  | Undo => right; rfl

theorem State.exec_action_error_shots (choose : List (List Coordinate) → Nat)
    (s : State) (a : Action) (e : String)
    (h : (State.exec_action choose s a).2 = some e) :
    (State.exec_action choose s a).1.shots = s.shots := by
  rcases State.exec_action_shots_or choose s a with h2 | h2
  · rw [h2] at h
    exact absurd h (by simp)
  · exact h2

theorem State.exec_action_frame (choose : List (List Coordinate) → Nat)
    (s : State) (a : Action) :
    (State.exec_action choose s a).1.heat_field = s.heat_field ∧
    (State.exec_action choose s a).1.top_moves = s.top_moves := by
  cases a with
  | Fire arg =>
    cases arg with
    | Known c =>
      simp only [State.exec_action]
      cases s.shots.set_value c .Miss <;> exact ⟨rfl, rfl⟩
    | Unknown => exact ⟨rfl, rfl⟩
  | Hit arg =>
    cases arg with
    | Known c =>
      simp only [State.exec_action]
      cases s.shots.set_value c .Hit <;> exact ⟨rfl, rfl⟩
    | Unknown => exact ⟨rfl, rfl⟩
  | Unfire arg =>
    cases arg with
    | Known c =>
      simp only [State.exec_action]
      cases s.shots.set_value c .Untested <;> exact ⟨rfl, rfl⟩
    | Unknown => exact ⟨rfl, rfl⟩
  | Sink arg =>
    cases arg with
    | Known L => exact State.sink_ship_frame choose s L
    | Unknown => exact ⟨rfl, rfl⟩
  | Unsink arg => cases arg <;> exact ⟨rfl, rfl⟩
  | Undo => exact ⟨rfl, rfl⟩

theorem State.take_action_nonundo (choose : List (List Coordinate) → Nat)
    (s : State) (a : Action) (h : a ≠ .Undo) :
    State.take_action choose s a =
      (match (State.exec_action choose s a).2 with
       | some e => ((State.exec_action choose s a).1, some e)
       | none =>
         (({ (State.exec_action choose s a).1 with
             action_history :=
               a :: (State.exec_action choose s a).1.action_history }).update,
           none)) := by
  cases a with
  | Undo => exact absurd rfl h
  | Fire arg => rfl
  | Hit arg => rfl
  | Sink arg => rfl
  | Unfire arg => rfl
  | Unsink arg => rfl

theorem State.take_action_cases (choose : List (List Coordinate) → Nat)
    (s : State) (a : Action) :
    ((State.take_action choose s a).1.heat_field =
        gen_heat_field (State.take_action choose s a).1.shots
          (State.take_action choose s a).1.ships ∧
      (State.take_action choose s a).1.top_moves =
        generate_top_moves (State.take_action choose s a).1.heat_field) ∨
    ((State.take_action choose s a).1.heat_field = s.heat_field ∧
      (State.take_action choose s a).1.shots = s.shots ∧
      (State.take_action choose s a).1.top_moves = s.top_moves) := by
  by_cases hU : a = .Undo
  · subst hU
    cases hist : s.action_history with
    | nil =>
      right
      refine ⟨?_, ?_, ?_⟩ <;> simp only [State.take_action, hist]
    | cons last rest =>
      simp only [State.take_action, hist]
      cases hres : (State.exec_action choose { s with action_history := rest }
          last.opposite).2 with
      | none => exact Or.inl ⟨rfl, rfl⟩
      | some e =>
        right
        exact ⟨(State.exec_action_frame choose _ _).1,
          State.exec_action_error_shots choose _ _ e hres,
          (State.exec_action_frame choose _ _).2⟩
  · rw [State.take_action_nonundo choose s a hU]
    cases hres : (State.exec_action choose s a).2 with
    | none => exact Or.inl ⟨rfl, rfl⟩
    | some e =>
      right
      exact ⟨(State.exec_action_frame choose s a).1,
        State.exec_action_error_shots choose s a e hres,
        (State.exec_action_frame choose s a).2⟩

theorem reachable_invariant (s : State) (hs : Reachable s) :
    (∃ ships2, s.heat_field = gen_heat_field s.shots ships2) ∧
    s.top_moves = generate_top_moves s.heat_field := by
  induction hs with
  | new w h ships hw hh hne => exact ⟨⟨ships, rfl⟩, rfl⟩
  | step choose s2 a hs2 ih =>
    rcases State.take_action_cases choose s2 a with h | h
    · exact ⟨⟨(State.take_action choose s2 a).1.ships, h.1⟩, h.2⟩
    · obtain ⟨⟨ships2, hheat⟩, htop⟩ := ih
      refine ⟨⟨ships2, ?_⟩, ?_⟩
      · rw [h.1, h.2.1, hheat]
      · rw [h.2.2, h.1, htop]

/-- C3: every cell of the heat field produced by gen_heat_field lies in
[0, 1], and every cell whose shot status is Hit, Miss or Sunk holds exactly
0; in particular this holds for the cached heat field of every state
reachable from State::new by take_action.  (For an empty ship inventory the
source panics on an empty reduce; the model returns an empty field, making
that case vacuous.) -/
theorem heat_field_bounds :
    (∀ (shots : Field ShotStatus) (ships : List Nat) (coord : Coordinate)
        (v : ℚ), (gen_heat_field shots ships).get_value coord = some v →
      (0 ≤ v ∧ v ≤ 1) ∧
      ∀ st, shots.get_value coord = some st → st ≠ .Untested → v = 0) ∧
    (∀ s, Reachable s → ∀ (coord : Coordinate) (v : ℚ),
      s.heat_field.get_value coord = some v →
        (0 ≤ v ∧ v ≤ 1) ∧
        ∀ st, s.shots.get_value coord = some st → st ≠ .Untested → v = 0) := by
  constructor
  · exact gen_heat_field_cell
  · intro s hs coord v h
    obtain ⟨⟨ships2, hheat⟩, _⟩ := reachable_invariant s hs
    rw [hheat] at h
    exact gen_heat_field_cell s.shots ships2 coord v h

end Battleships

namespace Battleships

theorem default_rat : (default : ℚ) = 0 := rfl

set_option maxHeartbeats 2000000 in
/-- Witness for C3: a 2×1 board [Untested, Miss] with inventory [5] (the ship
fits nowhere, so the whole field is 0; the Miss cell is masked to exactly 0),
and the fresh reachable 2×1 state with the same inventory. -/
theorem heat_field_bounds_witness :
    ((0 ≤ (0 : ℚ) ∧ (0 : ℚ) ≤ 1) ∧
      (∀ st, (Field.mk [[ShotStatus.Untested, ShotStatus.Miss]]).get_value
          ⟨0, 1⟩ = some st → st ≠ .Untested → (0 : ℚ) = 0)) ∧
    ((0 ≤ (0 : ℚ) ∧ (0 : ℚ) ≤ 1) ∧
      (∀ st, (State.new 2 1 [5]).shots.get_value ⟨0, 0⟩ = some st →
        st ≠ .Untested → (0 : ℚ) = 0)) := by
  constructor
  · refine heat_field_bounds.1 ⟨[[.Untested, .Miss]]⟩ [5] ⟨0, 1⟩ 0 ?_
    simp [gen_heat_field, mask_heat_field, reduce_heat_fields, Base.gen_heat,
      Base.gen_ship_counts, Base.ship_counts_to_heat, HitHeat.gen_heat,
      Field.transform_all, Field.find_all, Field.new_default, Field.merge_fields,
      Field.get_value, Field.width, Field.height, gen_line, gen_line_step,
      get_streaks, gen_free_space, Field.values, ShotStatus.can_contain_ship,
      ShotStatus.isHit, List.range_succ, List.enum, List.enumFrom, default_rat]
  · refine heat_field_bounds.2 (State.new 2 1 [5])
      (Reachable.new 2 1 [5] (by decide) (by decide) (by decide)) ⟨0, 0⟩ 0 ?_
    simp [State.new, gen_heat_field, mask_heat_field, reduce_heat_fields,
      Base.gen_heat, Base.gen_ship_counts, Base.ship_counts_to_heat,
      HitHeat.gen_heat, Field.transform_all, Field.find_all, Field.new_default,
      Field.merge_fields, Field.get_value, Field.width, Field.height, gen_line,
      gen_line_step, get_streaks, gen_free_space, Field.values,
      ShotStatus.can_contain_ship, ShotStatus.isHit, List.range_succ,
      List.enum, List.enumFrom, default_rat, default_shot_status]

end Battleships

namespace Battleships


theorem eps_nonneg : (0 : ℚ) ≤ eps := by norm_num [eps]

theorem cellsMax_concat (ys : List (Coordinate × ℚ)) (y : Coordinate × ℚ)
    (h : ys ≠ []) : cellsMax (ys ++ [y]) = max (cellsMax ys) y.2 := by
  cases ys with
  | nil => exact absurd rfl h
  | cons c rest =>
    show cellsMax (c :: (rest ++ [y])) = _
    simp only [cellsMax]
    rw [List.foldl_concat]

theorem top_moves_fold_spec (cells : List (Coordinate × ℚ)) :
    cells ≠ [] →
    ∃ M, (cells.foldl top_moves_step (none, [])).1 = some M ∧
      M = cellsMax cells ∧
      (∀ cv ∈ cells, cv.2 ≤ M) ∧
      (∃ cv ∈ cells, cv.2 = M) ∧
      (cells.foldl top_moves_step (none, [])).2 ≠ [] ∧
      (cells.foldl top_moves_step (none, [])).2.head? =
        (cells.find? (fun cv => decide (cv.2 = M))).map Prod.fst ∧
      (∀ cv ∈ cells, cv.2 = M →
        cv.1 ∈ (cells.foldl top_moves_step (none, [])).2) ∧
      (∀ c ∈ (cells.foldl top_moves_step (none, [])).2,
        ∃ v, (c, v) ∈ cells ∧ M - v ≤ eps) := by
  induction cells using List.reverseRecOn with
  | nil => intro h; exact absurd rfl h
  | append_singleton ys y ih =>
    intro _
    rcases eq_or_ne ys [] with rfl | hys
    · refine ⟨y.2, rfl, by simp [cellsMax], ?_, ⟨y, by simp⟩, by simp [top_moves_step], ?_, ?_, ?_⟩
      · intro cv hcv
        simp at hcv
        rw [hcv]
      · simp [top_moves_step, List.find?_cons]
      · intro cv hcv _
        simp at hcv
        simp [top_moves_step, hcv]
      · intro c hc
        simp [top_moves_step] at hc
        exact ⟨y.2, by simp [hc], by simp [eps_nonneg]⟩
    · obtain ⟨M, hM, hMmax, hbound, hattain, hmne, hhead, hexact, hwithin⟩ := ih hys
      rw [List.foldl_concat]
      have hfind_some : ∃ x, ys.find? (fun cv => decide (cv.2 = M)) = some x := by
        apply Option.ne_none_iff_exists'.mp
        intro hn
        obtain ⟨cv, hcvm, hcve⟩ := hattain
        exact List.find?_eq_none.mp hn cv hcvm (by simp [hcve])
      obtain ⟨xf, hxf⟩ := hfind_some
      by_cases hgt : y.2 > M
      · refine ⟨y.2, ?_, ?_, ?_, ?_, ?_, ?_, ?_, ?_⟩
        · simp [top_moves_step, hM, hgt]
        · rw [cellsMax_concat ys y hys, ← hMmax]
          exact (max_eq_right hgt.le).symm
        · intro cv hcv
          rcases List.mem_append.mp hcv with h | h
          · exact le_trans (hbound cv h) hgt.le
          · simp at h
            rw [h]
        · exact ⟨y, by simp⟩
        · simp [top_moves_step, hM, hgt]
        · simp only [top_moves_step, hM, if_pos hgt]
          rw [List.find?_append]
          have hnone : ys.find? (fun cv => decide (cv.2 = y.2)) = none := by
            rw [List.find?_eq_none]
            intro x hx
            simp only [decide_eq_true_eq]
            exact fun hEq => absurd (hEq ▸ hbound x hx) (not_le.mpr hgt)
          rw [hnone]
          simp
        · intro cv hcv heq
          rcases List.mem_append.mp hcv with h | h
          · exact absurd (heq ▸ hbound cv h) (not_le.mpr hgt)
          · simp at h
            simp [top_moves_step, hM, hgt, h]
        · intro c hc
          simp only [top_moves_step, hM, if_pos hgt] at hc
          simp at hc
          refine ⟨y.2, ?_, by simp [eps_nonneg]⟩
          rw [hc]
          exact List.mem_append.mpr (Or.inr (by simp))
      · have hyle : y.2 ≤ M := not_lt.mp hgt
        have hmax2 : cellsMax (ys ++ [y]) = M := by
          rw [cellsMax_concat ys y hys, ← hMmax]
          exact max_eq_left hyle
        by_cases habs : |y.2 - M| ≤ eps
        · refine ⟨M, ?_, hmax2.symm, ?_, ?_, ?_, ?_, ?_, ?_⟩
          · simp [top_moves_step, hM, hgt, habs]
          · intro cv hcv
            rcases List.mem_append.mp hcv with h | h
            · exact hbound cv h
            · simp at h
              rw [h]
              exact hyle
          · obtain ⟨cv, hcvm, hcve⟩ := hattain
            exact ⟨cv, List.mem_append.mpr (Or.inl hcvm), hcve⟩
          · simp [top_moves_step, hM, hgt, habs]
          · simp only [top_moves_step, hM, if_neg hgt, if_pos habs]
            rw [List.head?_append, List.find?_append, hxf]
            cases hmv : (ys.foldl top_moves_step (none, [])).2 with
            | nil => exact absurd hmv hmne
            | cons m ms =>
              rw [hmv, hxf] at hhead
              simp only [List.head?_cons] at hhead
              simp only [List.head?_cons, Option.or_some]
              exact hhead
          · intro cv hcv heq
            simp only [top_moves_step, hM, if_neg hgt, if_pos habs]
            rcases List.mem_append.mp hcv with h | h
            · exact List.mem_append.mpr (Or.inl (hexact cv h heq))
            · simp at h
              rw [h]
              exact List.mem_append.mpr (Or.inr (by simp))
          · intro c hc
            simp only [top_moves_step, hM, if_neg hgt, if_pos habs] at hc
            rcases List.mem_append.mp hc with h | h
            · obtain ⟨v, hmem, hvb⟩ := hwithin c h
              exact ⟨v, List.mem_append.mpr (Or.inl hmem), hvb⟩
            · simp at h
              refine ⟨y.2, ?_, ?_⟩
              · rw [h]
                exact List.mem_append.mpr (Or.inr (by simp))
              · rw [abs_sub_comm, abs_of_nonneg (by linarith)] at habs
                linarith
        · refine ⟨M, ?_, hmax2.symm, ?_, ?_, ?_, ?_, ?_, ?_⟩
          · simp [top_moves_step, hM, hgt, habs]
          · intro cv hcv
            rcases List.mem_append.mp hcv with h | h
            · exact hbound cv h
            · simp at h
              rw [h]
              exact hyle
          · obtain ⟨cv, hcvm, hcve⟩ := hattain
            exact ⟨cv, List.mem_append.mpr (Or.inl hcvm), hcve⟩
          · simp [top_moves_step, hM, hgt, habs, hmne]
          · simp only [top_moves_step, hM, if_neg hgt, if_neg habs]
            rw [List.find?_append, hxf, Option.or_some, hhead, hxf]
          · intro cv hcv heq
            simp only [top_moves_step, hM, if_neg hgt, if_neg habs]
            rcases List.mem_append.mp hcv with h | h
            · exact hexact cv h heq
            · simp at h
              rw [h] at heq
              rw [heq] at habs
              exact absurd (by simpa using eps_nonneg) habs
          · intro c hc
            simp only [top_moves_step, hM, if_neg hgt, if_neg habs] at hc
            obtain ⟨v, hmem, hvb⟩ := hwithin c hc
            exact ⟨v, List.mem_append.mpr (Or.inl hmem), hvb⟩

end Battleships

namespace Battleships

set_option maxHeartbeats 3000000 in
/-- C9 counterexample: a reachable 2×1 state holding a Miss at (0,0) and an
all-zero heat field (a ship of length 5 fits nowhere) has top-move set
[(0,0), (0,1)], which contains the Miss cell: generate_top_moves scans ALL
cells, not just the Untested ones, so the top-move set is not the set of
Untested cells attaining the maximum. -/
theorem top_moves_counterexample :
    (State.take_action (fun _ => 0) (State.new 2 1 [5])
        (.Fire (.Known ⟨0, 0⟩))).1.top_moves = [⟨0, 0⟩, ⟨0, 1⟩] ∧
    (State.take_action (fun _ => 0) (State.new 2 1 [5])
        (.Fire (.Known ⟨0, 0⟩))).1.shots.get_value ⟨0, 0⟩ = some .Miss ∧
    Reachable (State.take_action (fun _ => 0) (State.new 2 1 [5])
        (.Fire (.Known ⟨0, 0⟩))).1 := by
  refine ⟨?_, by rfl, Reachable.step (fun _ => 0) _ (.Fire (.Known ⟨0, 0⟩))
    (Reachable.new 2 1 [5] (by decide) (by decide) (by decide))⟩
  norm_num [State.take_action, State.exec_action, State.new, State.update,
    Field.set_value, Field.new_default, default_shot_status,
    generate_top_moves, top_moves_step, cellsOf, gen_heat_field,
    mask_heat_field, reduce_heat_fields, Base.gen_heat, Base.gen_ship_counts,
    Base.ship_counts_to_heat, HitHeat.gen_heat, Field.transform_all,
    Field.find_all, Field.merge_fields, Field.get_value, Field.width,
    Field.height, gen_line, gen_line_step, get_streaks, gen_free_space,
    ShotStatus.can_contain_ship, ShotStatus.isHit, List.range_succ,
    List.enum, List.enumFrom, default_rat, eps]

/-- C9 (amended): for every reachable state with a non-empty cell list, the
cached top-move set is non-empty; its first element is the first cell in
row-major scan order attaining the maximum heat value over ALL cells; every
cell attaining the maximum exactly is in the set; and every member's heat
value is within f32 epsilon of the maximum.  (The scan is not restricted to
Untested cells, and a cell scanned before the first maximal cell is dropped
even when it is within epsilon of the maximum.) -/
theorem top_moves_spec (s : State) (hs : Reachable s)
    (hne : cellsOf s.heat_field ≠ []) :
    s.top_moves ≠ [] ∧
    s.top_moves.head? = ((cellsOf s.heat_field).find?
      (fun cv => decide (cv.2 = cellsMax (cellsOf s.heat_field)))).map
        Prod.fst ∧
    (∀ cv ∈ cellsOf s.heat_field, cv.2 = cellsMax (cellsOf s.heat_field) →
      cv.1 ∈ s.top_moves) ∧
    (∀ c ∈ s.top_moves, ∃ v, (c, v) ∈ cellsOf s.heat_field ∧
      cellsMax (cellsOf s.heat_field) - v ≤ eps) := by
  obtain ⟨_, htop⟩ := reachable_invariant s hs
  obtain ⟨M, hM1, hMmax, hbound, hattain, hne2, hhead, hexact, hwithin⟩ :=
    top_moves_fold_spec (cellsOf s.heat_field) hne
  subst hMmax
  rw [htop]
  unfold generate_top_moves
  exact ⟨hne2, hhead, hexact, hwithin⟩

set_option maxHeartbeats 3000000 in
/-- Witness for C9 (amended): the fresh reachable 2×1 state with inventory
[5]. -/
theorem top_moves_spec_witness :
    (State.new 2 1 [5]).top_moves ≠ [] ∧
    (State.new 2 1 [5]).top_moves.head? =
      ((cellsOf (State.new 2 1 [5]).heat_field).find?
        (fun cv => decide (cv.2 =
          cellsMax (cellsOf (State.new 2 1 [5]).heat_field)))).map Prod.fst ∧
    (∀ cv ∈ cellsOf (State.new 2 1 [5]).heat_field,
      cv.2 = cellsMax (cellsOf (State.new 2 1 [5]).heat_field) →
        cv.1 ∈ (State.new 2 1 [5]).top_moves) ∧
    (∀ c ∈ (State.new 2 1 [5]).top_moves,
      ∃ v, (c, v) ∈ cellsOf (State.new 2 1 [5]).heat_field ∧
        cellsMax (cellsOf (State.new 2 1 [5]).heat_field) - v ≤ eps) := by
  refine top_moves_spec (State.new 2 1 [5])
    (Reachable.new 2 1 [5] (by decide) (by decide) (by decide)) ?_
  norm_num [State.new, cellsOf, gen_heat_field, mask_heat_field,
    reduce_heat_fields, Base.gen_heat, Base.gen_ship_counts,
    Base.ship_counts_to_heat, HitHeat.gen_heat, Field.transform_all,
    Field.find_all, Field.new_default, Field.merge_fields, Field.width,
    Field.height, gen_line, gen_line_step, get_streaks, gen_free_space,
    ShotStatus.can_contain_ship, ShotStatus.isHit, List.range_succ,
    List.enum, List.enumFrom, default_rat, default_shot_status]
  exact List.cons_ne_nil _ _

end Battleships
